import Mathlib

/-!
Verification of the core of `xray_export.py`: the paginated fetcher
(`fetch_all_tests`), the custom-field formatter (`_format_jira_field_value`)
and the row flattener (`flatten_rows`).  Python/JSON values that the script
manipulates dynamically are modelled by the inductive `Xray.PyVal`; the
GraphQL response shapes (tests, steps, preconditions, pages) are modelled by
structures whose `Option` fields mirror the `dict.get` / `or`-coalescing
accesses of the source.  The network is modelled as a function from the
requested start offset to either a page or an error, and the unbounded
`while` loop of the fetcher is given fuel; `FetchOutcome.outOfFuel` marks a
run that would still be looping.
-/

namespace Xray

/-- Python values as they occur in the parsed JSON the script handles:
`None`, strings, integers, booleans, lists and string-keyed dicts. -/
inductive PyVal where
  | none
  | str (s : String)
  | int (n : Int)
  | bool (b : Bool)
  | list (xs : List PyVal)
  | dict (fields : List (String × PyVal))

/-- Python truthiness (`bool(v)`): `None`, `""`, `0`, `False`, `[]` and
`{}` are falsy, everything else truthy. -/
def truthy : PyVal → Bool
  | .none => false
  | .str s => !(s == "")
  | .int n => !(n == 0)
  | .bool b => b
  | .list xs => !xs.isEmpty
  | .dict fs => !fs.isEmpty

mutual

/-- Python `repr(v)` (simplified: no escaping inside string quotes).
`str` of a list or dict falls back to this representation. -/
def pyRepr : PyVal → String
  | .none => "None"
  | .str s => "\x27" ++ s ++ "\x27"
  | .int n => toString n
  | .bool b => if b then "True" else "False"
  | .list xs => "[" ++ String.intercalate ", " (pyReprList xs) ++ "]"
  | .dict fs => "\x7b" ++ String.intercalate ", " (pyReprFields fs) ++ "\x7d"

/-- `repr` of every element of a list. -/
def pyReprList : List PyVal → List String
  | [] => []
  | x :: xs => pyRepr x :: pyReprList xs

/-- `repr` of every `key: value` entry of a dict. -/
def pyReprFields : List (String × PyVal) → List String
  | [] => []
  | (k, v) :: fs => ("\x27" ++ k ++ "\x27: " ++ pyRepr v) :: pyReprFields fs

end

/-- Python `str(v)`: a string is itself, everything else its `repr`
(`str(None) = "None"`, `str(True) = "True"`, `str(0) = "0"`, ...). -/
def pyStr (v : PyVal) : String :=
  match v with
  | .str s => s
  | v => pyRepr v

/-- One item of the multi-select branch of `_format_jira_field_value`:
`str(item.get('value', ''))` for a dict containing `'value'`, else
`str(item)`. -/
def formatListItem : PyVal → String
  | .dict fs =>
    if (fs.lookup "value").isSome then pyStr ((fs.lookup "value").getD (.str ""))
    else pyStr (.dict fs)
  | v => pyStr v

/-- `_format_jira_field_value` (src/xray_export.py:111-128): a dict with a
`'value'` key yields `str` of that value; a list yields the `", "`-join of
its items' strings with empty strings filtered out (`filter(None, ...)`);
any other truthy value yields `str(value)`; anything falsy yields `""`. -/
def formatJiraFieldValue (value : PyVal) : String :=
  match value with
  | .dict fs =>
    if (fs.lookup "value").isSome then pyStr ((fs.lookup "value").getD (.str ""))
    else if truthy (.dict fs) then pyStr (.dict fs) else ""
  | .list xs =>
    String.intercalate ", " ((xs.map formatListItem).filter (fun s => !(s == "")))
  | v => if truthy v then pyStr v else ""

/-- Does the value look like a single-choice mapping: a dict containing a
`'value'` key? -/
def isChoiceDict : PyVal → Bool
  | .dict fs => (fs.lookup "value").isSome
  | _ => false

/-- Is the value a list? -/
def isListVal : PyVal → Bool
  | .list _ => true
  | _ => false

/-- The `value` entry of a choice dict (the value itself otherwise). -/
def choiceValue : PyVal → PyVal
  | .dict fs => (fs.lookup "value").getD (.str "")
  | v => v

/-- Python whitespace for `str.split()` / `str.strip()` (ASCII range):
space, tab, newline, carriage return, vertical tab, form feed. -/
def pyIsSpace (c : Char) : Bool :=
  c == ' ' || c == '\t' || c == '\n' || c == '\r' || c == '\x0b' || c == '\x0c'

/-- Python `s.strip()`: drop whitespace from both ends. -/
def pyStrip (s : String) : String :=
  String.mk (((s.toList.dropWhile pyIsSpace).reverse.dropWhile pyIsSpace).reverse)

/-- Python `s.split()` on a character list: split on runs of whitespace,
dropping empty pieces; `acc` holds the current token reversed. -/
def pySplitAux : List Char → List Char → List (List Char)
  | [], acc => if acc.isEmpty then [] else [acc.reverse]
  | c :: cs, acc =>
    if pyIsSpace c then
      if acc.isEmpty then pySplitAux cs [] else acc.reverse :: pySplitAux cs []
    else pySplitAux cs (c :: acc)

/-- Python `' '.join(tokens)` on character lists. -/
def joinSpace : List (List Char) → List Char
  | [] => []
  | [t] => t
  | t :: t2 :: ts => t ++ ' ' :: joinSpace (t2 :: ts)

/-- The whitespace normalization `' '.join(definition.split())` applied to
each non-empty precondition definition (src/xray_export.py:159). -/
def normalizeWhitespace (s : String) : String :=
  String.mk (joinSpace (pySplitAux s.toList []))

/-- One entry of a step's `customFields` list: `{ name value }` from the
GraphQL query; either field may be null. -/
structure StepCustomField where
  name : Option String
  value : Option String

/-- One test step: `steps { id action result customFields { name value } }`
(the `id` is never read by the flattener and is omitted).  A list entry of
`customFields` may itself be null, hence the inner `Option`. -/
structure Step where
  action : Option String
  result : Option String
  customFields : Option (List (Option StepCustomField))

/-- The `jira(fields:["key","summary"])` object of a precondition issue. -/
structure PreJira where
  key : Option String
  summary : Option String

/-- One precondition issue: `{ jira(...) definition }`. -/
structure PreconditionRef where
  jira : Option PreJira
  definition : Option String

/-- The `jira(fields:["*all"])` object of a test: the keys the flattener
reads (`key`, `summary`, `labels`) plus the raw `customfield_*` entries,
kept as an association list of dynamic values. -/
structure JiraInfo where
  key : Option String
  summary : Option String
  labels : Option (List String)
  fields : List (String × PyVal)

/-- One test as returned by `getTests`: `jira`, `steps` and the
`preconditions.results` list (the two `or`-coalesced accesses
`(test.get("preconditions") or {}).get("results") or []` are modelled by a
single `Option` around the results list; a results entry may be null). -/
structure Test where
  jira : Option JiraInfo
  steps : Option (List Step)
  preconditionResults : Option (List (Option PreconditionRef))

/-- `CUSTOM_FIELDS_TO_EXPORT` (src/xray_export.py:33-36), in insertion
order: field id to spreadsheet column name. -/
def CUSTOM_FIELDS_TO_EXPORT : List (String × String) :=
  [("customfield_10138", "Components"), ("customfield_10167", "Custom Field 2")]

/-- One output row of `flatten_rows`.  `stepNum` is `Option.none` for the
single row of a step-less test (Python writes `""` there) and `some idx`
(1-based) otherwise; `customFields` holds the configured
`(column name, formatted value)` pairs in configuration order. -/
structure FlatRow where
  testKey : String
  summary : String
  labels : String
  customFields : List (String × String)
  issuePreTitles : String
  issuePreDefs : String
  stepNum : Option Nat
  stepPrecondition : String
  action : String
  expectedResult : String

/-- The record-level part of a row: everything except the four step
columns. -/
def FlatRow.recordPart (r : FlatRow) :
    String × String × String × List (String × String) × String × String :=
  (r.testKey, r.summary, r.labels, r.customFields, r.issuePreTitles, r.issuePreDefs)

/-- The `pre_titles_list` loop (src/xray_export.py:147-154): for every
non-null precondition whose jira `key` and `summary` are both truthy
(present and non-empty), the display string `f"{key} - {summary}"`. -/
def preTitlesList : List (Option PreconditionRef) → List String
  | [] => []
  | Option.none :: rest => preTitlesList rest
  | Option.some p :: rest =>
    let pj := p.jira.getD ⟨Option.none, Option.none⟩
    if !(pj.key.getD "" == "") && !(pj.summary.getD "" == "") then
      (pj.key.getD "" ++ " - " ++ pj.summary.getD "") :: preTitlesList rest
    else preTitlesList rest

/-- The `pre_defs_list` loop (src/xray_export.py:156-160): for every
non-null precondition with a truthy `definition`, the whitespace-normalized
definition. -/
def preDefsList : List (Option PreconditionRef) → List String
  | [] => []
  | Option.none :: rest => preDefsList rest
  | Option.some p :: rest =>
    if !(p.definition.getD "" == "") then
      normalizeWhitespace (p.definition.getD "") :: preDefsList rest
    else preDefsList rest

/-- The `base_row` of a test (src/xray_export.py:162-169), extended with
the empty step columns that Python adds for a step-less test
(src/xray_export.py:174): key, summary, `", "`-joined labels, formatted
configured custom fields, `"; "`-joined precondition titles and
`" | "`-joined normalized precondition definitions. -/
def baseRow (test : Test) : FlatRow :=
  let jiraInfo := test.jira.getD ⟨Option.none, Option.none, Option.none, []⟩
  { testKey := jiraInfo.key.getD ""
    summary := jiraInfo.summary.getD ""
    labels := String.intercalate ", " (jiraInfo.labels.getD [])
    customFields := CUSTOM_FIELDS_TO_EXPORT.map
      (fun p => (p.2, formatJiraFieldValue ((jiraInfo.fields.lookup p.1).getD PyVal.none)))
    issuePreTitles := String.intercalate "; " (preTitlesList (test.preconditionResults.getD []))
    issuePreDefs := String.intercalate " | " (preDefsList (test.preconditionResults.getD []))
    stepNum := Option.none
    stepPrecondition := ""
    action := ""
    expectedResult := "" }

/-- Python `s.lower()` (character-wise lowercasing; ASCII-faithful). -/
def pyLower (s : String) : String :=
  String.mk (s.toList.map Char.toLower)

/-- Does a `customFields` entry pass the loop guard
`cf and cf.get("name", "").lower() == "precondition"`
(src/xray_export.py:181)? -/
def matchesPrecondition : Option StepCustomField → Bool
  | Option.none => false
  | Option.some cf => pyLower (cf.name.getD "") == "precondition"

/-- The step-precondition scan (src/xray_export.py:178-183): the first
entry passing the guard supplies `cf.get("value") or ""`; no match yields
`""`. -/
def findStepPrecondition : List (Option StepCustomField) → String
  | [] => ""
  | ocf :: rest =>
    match ocf with
    | Option.none => findStepPrecondition rest
    | Option.some cf =>
      if pyLower (cf.name.getD "") == "precondition" then cf.value.getD ""
      else findStepPrecondition rest

/-- One per-step row (src/xray_export.py:184-190): the base row with the
1-based step index, the stripped step precondition, and the stripped
action and expected result. -/
def stepRow (base : FlatRow) (idx : Nat) (step : Step) : FlatRow :=
  { base with
    stepNum := Option.some idx
    stepPrecondition := pyStrip (findStepPrecondition (step.customFields.getD []))
    action := pyStrip (step.action.getD "")
    expectedResult := pyStrip (step.result.getD "") }

/-- The `enumerate(steps, start=1)` loop: one row per step, indices
counting up from `idx`. -/
def stepRowsFrom (base : FlatRow) : Nat → List Step → List FlatRow
  | _, [] => []
  | idx, s :: rest => stepRow base idx s :: stepRowsFrom base (idx + 1) rest

/-- The rows one test contributes (src/xray_export.py:171-190): a single
row with empty step columns when `steps` is empty, else one row per step. -/
def rowsForTest (test : Test) : List FlatRow :=
  let steps := test.steps.getD []
  if steps.isEmpty then [baseRow test] else stepRowsFrom (baseRow test) 1 steps

/-- `flatten_rows` (src/xray_export.py:130-191): the concatenation, in
input order, of each test's rows. -/
def flatten_rows : List Test → List FlatRow
  | [] => []
  | t :: ts => rowsForTest t ++ flatten_rows ts

/-- One `getTests` page as read by the fetcher: `data.get("total", 0)`,
`data.get("limit", limit)` and `data.get("results") or []` are modelled by
the `Option` fields (a null value and an absent key coincide). -/
structure GetTestsPage where
  total : Option Int
  limit : Option Int
  results : Option (List Test)

/-- Outcome of a fetch run: the accumulated tests together with the list
of start offsets actually requested, an error escaping the loop with the
offsets requested so far, or fuel exhaustion (the Python loop would still
be running). -/
inductive FetchOutcome where
  | ok (tests : List Test) (offsets : List Int)
  | error (msg : String) (offsets : List Int)
  | outOfFuel (offsets : List Int)

/-- Is the outcome fuel exhaustion? -/
def FetchOutcome.isOutOfFuel : FetchOutcome → Bool
  | .outOfFuel _ => true
  | _ => false

/-- The guard of `while start < total and batch:`
(src/xray_export.py:102). -/
def loopCond (total start : Int) (batch : List Test) : Bool :=
  decide (start < total) && !batch.isEmpty

/-- The `while` loop of `fetch_all_tests` (src/xray_export.py:101-108),
with fuel.  `server` maps a start offset to the page the GraphQL call
returns, or to the exception it raises; the requested page size `reqLimit`
is the same on every call.  Each iteration requests the page at `start`,
appends its records, and advances `start` by the server-reported limit
(falling back to `reqLimit` when the page carries none).  An exception
inside the loop is not caught. -/
def fetchLoop (server : Int → Except String GetTestsPage) (reqLimit total : Int) :
    Nat → Int → List Test → List Test → List Int → FetchOutcome
  | 0, start, out, batch, offsets =>
    if loopCond total start batch then .outOfFuel offsets else .ok out offsets
  | fuel + 1, start, out, batch, offsets =>
    if loopCond total start batch then
      match server start with
      | .error e => .error e (offsets ++ [start])
      | .ok data =>
        let batch2 := data.results.getD []
        fetchLoop server reqLimit total fuel (start + data.limit.getD reqLimit)
          (out ++ batch2) batch2 (offsets ++ [start])
    else .ok out offsets

/-- `fetch_all_tests` (src/xray_export.py:81-109): request the page at
offset 0; an exception there is caught and yields the empty result.  A
zero (or absent) total also yields the empty result.  Otherwise accumulate
the first batch, advance the offset by the server-reported limit and run
the loop. -/
def fetch_all_tests (server : Int → Except String GetTestsPage)
    (reqLimit : Int) (fuel : Nat) : FetchOutcome :=
  match server 0 with
  | .error _ => .ok [] [0]
  | .ok data =>
    if data.total.getD 0 == 0 then .ok [] [0]
    else
      let batch := data.results.getD []
      fetchLoop server reqLimit (data.total.getD 0) fuel
        (data.limit.getD reqLimit) batch batch [0]

/-- A test carrying no data at all (used for concrete fetch scenarios). -/
def dummyTest : Test := ⟨Option.none, Option.none, Option.none⟩

/-- A fetch run diverges when every amount of fuel is exhausted: the
Python loop never exits. -/
def fetchDiverges (server : Int → Except String GetTestsPage) (reqLimit : Int) : Prop :=
  ∀ fuel : Nat, (fetch_all_tests server reqLimit fuel).isOutOfFuel = true

/-- A server that reports total 1 and limit 0 and always returns one
record: the offset never advances, so the loop never exits. -/
def zeroLimitServer : Int → Except String GetTestsPage :=
  fun _ => .ok ⟨Option.some 1, Option.some 0, Option.some [dummyTest]⟩

theorem loopCond_true_iff (total start : Int) (batch : List Test) :
    loopCond total start batch = true ↔ start < total ∧ batch ≠ [] := by
  cases batch <;> simp [loopCond, List.isEmpty]

theorem loopCond_false_of_le (total start : Int) (batch : List Test)
    (h : total ≤ start) : loopCond total start batch = false := by
  unfold loopCond
  rw [decide_eq_false (not_lt.mpr h)]
  rfl

theorem fetchLoop_stop (server : Int → Except String GetTestsPage)
    (reqLimit total : Int) (fuel : Nat) (start : Int) (out batch : List Test)
    (offsets : List Int) (h : loopCond total start batch = false) :
    fetchLoop server reqLimit total fuel start out batch offsets = .ok out offsets := by
  cases fuel <;> simp [fetchLoop, h]

theorem fetchLoop_error_step (server : Int → Except String GetTestsPage)
    (reqLimit total : Int) (fuel : Nat) (start : Int) (out batch : List Test)
    (offsets : List Int) (e : String) (h : loopCond total start batch = true)
    (he : server start = .error e) :
    fetchLoop server reqLimit total (fuel + 1) start out batch offsets
      = .error e (offsets ++ [start]) := by
  simp [fetchLoop, h, he]

theorem fetchLoop_ok_step (server : Int → Except String GetTestsPage)
    (reqLimit total : Int) (fuel : Nat) (start : Int) (out batch : List Test)
    (offsets : List Int) (t l : Option Int) (r : Option (List Test))
    (h : loopCond total start batch = true) (hs : server start = .ok ⟨t, l, r⟩) :
    fetchLoop server reqLimit total (fuel + 1) start out batch offsets
      = fetchLoop server reqLimit total fuel (start + l.getD reqLimit)
          (out ++ r.getD []) (r.getD []) (offsets ++ [start]) := by
  simp [fetchLoop, h, hs]

/-- C4. If the very first page request fails with any error, the fetch
returns the empty sequence without propagating the error, and no request
beyond the one at offset 0 is issued. -/
theorem fetch_all_tests_first_page_failure
    (server : Int → Except String GetTestsPage) (reqLimit : Int) (fuel : Nat)
    (e : String) (h : server 0 = .error e) :
    fetch_all_tests server reqLimit fuel = .ok [] [0] := by
  simp [fetch_all_tests, h]

/-- A server whose every request fails. -/
def failingServer : Int → Except String GetTestsPage :=
  fun _ => .error "connection refused"

theorem fetch_all_tests_first_page_failure_witness :
    fetch_all_tests failingServer 100 10 = .ok [] [0] :=
  fetch_all_tests_first_page_failure failingServer 100 10 "connection refused" rfl

/-- C5. If, while records are still missing (`start < total`), a
subsequent page comes back with zero records, the fetch stops at once: it
returns exactly the records accumulated so far (here the first batch) and
requests no page beyond that empty one. -/
theorem fetch_all_tests_early_stop
    (server : Int → Except String GetTestsPage) (reqLimit : Int) (fuel : Nat)
    (t0 l0 : Int) (b0 : List Test) (p2t p2l : Option Int)
    (p2r : Option (List Test))
    (h1 : server 0 = .ok ⟨Option.some t0, Option.some l0, Option.some b0⟩)
    (ht0 : t0 ≠ 0) (hb : b0 ≠ []) (hlt : l0 < t0)
    (h2 : server l0 = .ok ⟨p2t, p2l, p2r⟩) (hres : p2r.getD [] = []) :
    fetch_all_tests server reqLimit (fuel + 1) = .ok b0 [0, l0] := by
  simp only [fetch_all_tests, h1, Option.getD_some, beq_iff_eq, if_neg ht0]
  rw [fetchLoop_ok_step server reqLimit t0 fuel l0 b0 b0 [0] p2t p2l p2r
    ((loopCond_true_iff t0 l0 b0).mpr ⟨hlt, hb⟩) h2]
  rw [hres]
  rw [fetchLoop_stop server reqLimit t0 fuel (l0 + p2l.getD reqLimit) (b0 ++ []) []
    ([0] ++ [l0]) (by simp [loopCond])]
  simp

/-- A server that answers the first page with 100 of the reported 250
records, and every later page with zero records. -/
def stallingServer : Int → Except String GetTestsPage :=
  fun s =>
    if s == 0 then
      .ok ⟨Option.some 250, Option.some 100, Option.some (List.replicate 100 dummyTest)⟩
    else .ok ⟨Option.some 250, Option.some 100, Option.some []⟩

theorem fetch_all_tests_early_stop_witness :
    fetch_all_tests stallingServer 100 5 = .ok (List.replicate 100 dummyTest) [0, 100] :=
  fetch_all_tests_early_stop stallingServer 100 4 250 100 (List.replicate 100 dummyTest)
    (Option.some 250) (Option.some 100) (Option.some []) rfl (by decide)
    (by simp) (by decide) rfl rfl

/-- C6. A failure on any page after the first propagates out of the loop:
the outcome is the error itself, not a partial result, and no further page
is requested. -/
theorem fetch_all_tests_midloop_failure
    (server : Int → Except String GetTestsPage) (reqLimit : Int) (fuel : Nat)
    (t0 l0 : Int) (b0 : List Test) (e : String)
    (h1 : server 0 = .ok ⟨Option.some t0, Option.some l0, Option.some b0⟩)
    (ht0 : t0 ≠ 0) (hb : b0 ≠ []) (hlt : l0 < t0)
    (h2 : server l0 = .error e) :
    fetch_all_tests server reqLimit (fuel + 1) = .error e [0, l0] := by
  simp only [fetch_all_tests, h1, Option.getD_some, beq_iff_eq, if_neg ht0]
  rw [fetchLoop_error_step server reqLimit t0 fuel l0 b0 b0 [0] e
    ((loopCond_true_iff t0 l0 b0).mpr ⟨hlt, hb⟩) h2]
  rfl

/-- A server that answers the first page and fails on every later one. -/
def crashingServer : Int → Except String GetTestsPage :=
  fun s =>
    if s == 0 then
      .ok ⟨Option.some 250, Option.some 100, Option.some (List.replicate 100 dummyTest)⟩
    else .error "boom"

theorem fetch_all_tests_midloop_failure_witness :
    fetch_all_tests crashingServer 100 5 = .error "boom" [0, 100] :=
  fetch_all_tests_midloop_failure crashingServer 100 4 250 100
    (List.replicate 100 dummyTest) "boom" rfl (by decide) (by simp) (by decide) rfl

/-- C3. With total 250, requested limit 100 and a server honoring the
requested limit (pages of 100, 100 and 50 records), the fetch requests
exactly the offsets 0, 100 and 200 and accumulates all 250 records; and in
general one loop iteration advances the offset by the limit the server
reported for that page (falling back to the requested limit only when the
page reports none). -/
theorem fetch_all_tests_pagination
    (server : Int → Except String GetTestsPage) (f : Int → List Test)
    (hserver : ∀ s : Int,
      server s = .ok ⟨Option.some 250, Option.some 100, Option.some (f s)⟩)
    (h0 : (f 0).length = 100) (h100 : (f 100).length = 100)
    (h200 : (f 200).length = 50) (fuel : Nat) :
    (fetch_all_tests server 100 (fuel + 2)
        = .ok (f 0 ++ f 100 ++ f 200) [0, 100, 200]
      ∧ (f 0 ++ f 100 ++ f 200).length = 250)
    ∧ ∀ (server2 : Int → Except String GetTestsPage) (reqLimit2 total2 : Int)
        (fuel2 : Nat) (start : Int) (out batch : List Test) (offsets : List Int)
        (page : GetTestsPage), start < total2 → batch ≠ [] →
        server2 start = .ok page →
        fetchLoop server2 reqLimit2 total2 (fuel2 + 1) start out batch offsets
          = fetchLoop server2 reqLimit2 total2 fuel2
              (start + page.limit.getD reqLimit2) (out ++ page.results.getD [])
              (page.results.getD []) (offsets ++ [start]) := by
  refine ⟨⟨?_, ?_⟩, ?_⟩
  · have hne0 : f 0 ≠ [] := by intro h; rw [h] at h0; simp at h0
    have hne100 : f 100 ≠ [] := by intro h; rw [h] at h100; simp at h100
    have hf : fuel + 2 = (fuel + 1) + 1 := rfl
    simp only [fetch_all_tests, hserver 0, Option.getD_some, beq_iff_eq,
      if_neg (by norm_num : (250 : Int) ≠ 0), hf]
    rw [fetchLoop_ok_step server 100 250 (fuel + 1) 100 (f 0) (f 0) [0]
      (Option.some 250) (Option.some 100) (Option.some (f 100))
      ((loopCond_true_iff 250 100 (f 0)).mpr ⟨by norm_num, hne0⟩) (hserver 100)]
    simp only [Option.getD_some]
    norm_num
    rw [fetchLoop_ok_step server 100 250 fuel 200 (f 0 ++ f 100) (f 100)
      [0, 100] (Option.some 250) (Option.some 100) (Option.some (f 200))
      ((loopCond_true_iff 250 200 (f 100)).mpr ⟨by norm_num, hne100⟩) (hserver 200)]
    simp only [Option.getD_some]
    norm_num
    rw [fetchLoop_stop server 100 250 fuel 300 (f 0 ++ (f 100 ++ f 200)) (f 200)
      [0, 100, 200] (loopCond_false_of_le 250 300 (f 200) (by norm_num))]
  · simp [h0, h100, h200]
  · intro server2 reqLimit2 total2 fuel2 start out batch offsets page hlt hb hs
    obtain ⟨pt, pl, pr⟩ := page
    exact fetchLoop_ok_step server2 reqLimit2 total2 fuel2 start out batch offsets
      pt pl pr ((loopCond_true_iff total2 start batch).mpr ⟨hlt, hb⟩) hs

/-- The page contents of a server honoring the requested limit 100 against
a total of 250: 100, 100 and 50 records at offsets 0, 100 and 200. -/
def honoringPages : Int → List Test :=
  fun s => if s == 200 then List.replicate 50 dummyTest else List.replicate 100 dummyTest

/-- A server reporting total 250 that always honors the requested limit
100. -/
def honoringServer : Int → Except String GetTestsPage :=
  fun s => .ok ⟨Option.some 250, Option.some 100, Option.some (honoringPages s)⟩

theorem fetch_all_tests_pagination_witness :
    fetch_all_tests honoringServer 100 2
      = .ok (honoringPages 0 ++ honoringPages 100 ++ honoringPages 200) [0, 100, 200] :=
  (fetch_all_tests_pagination honoringServer honoringPages (fun _ => rfl)
    rfl rfl rfl 0).1.1

theorem fetchLoop_zero_limit :
    ∀ (fuel : Nat) (out : List Test) (offsets : List Int),
      (fetchLoop zeroLimitServer 100 1 fuel 0 out [dummyTest] offsets).isOutOfFuel
        = true := by
  intro fuel
  induction fuel with
  | zero => intro out offsets; rfl
  | succ n ih =>
    intro out offsets
    rw [fetchLoop_ok_step zeroLimitServer 100 1 n 0 out [dummyTest] offsets
      (Option.some 1) (Option.some 0) (Option.some [dummyTest])
      ((loopCond_true_iff 1 0 [dummyTest]).mpr ⟨by norm_num, by simp⟩) rfl]
    simp only [Option.getD_some, Int.add_zero]
    exact ih (out ++ [dummyTest]) (offsets ++ [0])

/-- C9, counterexample. Against a server that reports a page limit of 0
while returning a nonempty page each time (total 1), the offset never
advances and the loop of `fetch_all_tests` never exits: every amount of
fuel is exhausted. -/
theorem fetch_all_tests_zero_limit_diverges : fetchDiverges zeroLimitServer 100 := by
  intro fuel
  show (fetchLoop zeroLimitServer 100 1 fuel 0 [dummyTest] [dummyTest] [0]).isOutOfFuel
    = true
  exact fetchLoop_zero_limit fuel [dummyTest] [0]

theorem fetchLoop_no_divergence (server : Int → Except String GetTestsPage)
    (reqLimit total : Int)
    (hpos : ∀ (s : Int) (page : GetTestsPage), server s = .ok page →
      1 ≤ page.limit.getD reqLimit) :
    ∀ (fuel : Nat) (start : Int) (out batch : List Test) (offsets : List Int),
      (total - start).toNat ≤ fuel →
      (fetchLoop server reqLimit total fuel start out batch offsets).isOutOfFuel
        = false := by
  intro fuel
  induction fuel with
  | zero =>
    intro start out batch offsets hle
    have hns : ¬ start < total := by omega
    rw [fetchLoop_stop server reqLimit total 0 start out batch offsets
      (by unfold loopCond; rw [decide_eq_false hns]; rfl)]
    rfl
  | succ n ih =>
    intro start out batch offsets hle
    cases hc : loopCond total start batch with
    | false =>
      rw [fetchLoop_stop server reqLimit total (n + 1) start out batch offsets hc]
      rfl
    | true =>
      have hlt : start < total := ((loopCond_true_iff total start batch).mp hc).1
      cases hs : server start with
      | error e =>
        rw [fetchLoop_error_step server reqLimit total n start out batch offsets e hc hs]
        rfl
      | ok page =>
        obtain ⟨pt, pl, pr⟩ := page
        rw [fetchLoop_ok_step server reqLimit total n start out batch offsets
          pt pl pr hc hs]
        apply ih
        have hl : 1 ≤ pl.getD reqLimit := hpos start ⟨pt, pl, pr⟩ hs
        omega

/-- C9, amended. The loop does terminate whenever every page the server
returns reports a positive limit (or reports none while the requested
limit is positive): some finite fuel is never exhausted. -/
theorem fetch_all_tests_terminates_of_positive_limits
    (server : Int → Except String GetTestsPage) (reqLimit : Int)
    (hpos : ∀ (s : Int) (page : GetTestsPage), server s = .ok page →
      1 ≤ page.limit.getD reqLimit) :
    ∃ fuel : Nat, (fetch_all_tests server reqLimit fuel).isOutOfFuel = false := by
  cases hs : server 0 with
  | error e =>
    exact ⟨0, by simp [fetch_all_tests, hs, FetchOutcome.isOutOfFuel]⟩
  | ok page =>
    obtain ⟨pt, pl, pr⟩ := page
    cases h0 : (pt.getD 0 == (0 : Int)) with
    | true =>
      exact ⟨0, by simp only [fetch_all_tests, hs, h0, if_true,
        FetchOutcome.isOutOfFuel]⟩
    | false =>
      refine ⟨(pt.getD 0 - pl.getD reqLimit).toNat, ?_⟩
      simp only [fetch_all_tests, hs, h0, if_false]
      exact fetchLoop_no_divergence server reqLimit (pt.getD 0) hpos
        ((pt.getD 0 - pl.getD reqLimit).toNat) (pl.getD reqLimit)
        (pr.getD []) (pr.getD []) [0] (le_refl _)

/-- A server reporting a positive limit on its single page. -/
def politeServer : Int → Except String GetTestsPage :=
  fun _ => .ok ⟨Option.some 1, Option.some 100, Option.some [dummyTest]⟩

theorem fetch_all_tests_terminates_of_positive_limits_witness :
    ∃ fuel : Nat, (fetch_all_tests politeServer 100 fuel).isOutOfFuel = false :=
  fetch_all_tests_terminates_of_positive_limits politeServer 100
    (by intro s page h; injection h with h2; subst h2; decide)

theorem length_stepRowsFrom (base : FlatRow) :
    ∀ (l : List Step) (k : Nat), (stepRowsFrom base k l).length = l.length := by
  intro l
  induction l with
  | nil => intro k; rfl
  | cons s rest ih => intro k; simp [stepRowsFrom, ih (k + 1)]

theorem getElem?_stepRowsFrom (base : FlatRow) :
    ∀ (l : List Step) (k i : Nat) (hi : i < l.length),
      (stepRowsFrom base k l)[i]? = Option.some (stepRow base (k + i) (l.get ⟨i, hi⟩)) := by
  intro l
  induction l with
  | nil => intro k i hi; exact absurd hi (by simp)
  | cons s rest ih =>
    intro k i hi
    cases i with
    | zero => simp [stepRowsFrom]
    | succ j =>
      have hj : j < rest.length := by simpa using hi
      simp only [stepRowsFrom, List.getElem?_cons_succ]
      rw [ih (k + 1) j hj]
      have hk : k + 1 + j = k + (j + 1) := by omega
      rw [hk]
      rfl

theorem recordPart_mem_stepRowsFrom (base : FlatRow) :
    ∀ (l : List Step) (k : Nat) (r : FlatRow), r ∈ stepRowsFrom base k l →
      r.recordPart = base.recordPart := by
  intro l
  induction l with
  | nil => intro k r hr; exact absurd hr (by simp [stepRowsFrom])
  | cons s rest ih =>
    intro k r hr
    rcases List.mem_cons.mp hr with h | h
    · rw [h]; rfl
    · exact ih (k + 1) r h

theorem flatten_rows_singleton (t : Test) : flatten_rows [t] = rowsForTest t := by
  simp [flatten_rows]

theorem length_rowsForTest (t : Test) :
    (rowsForTest t).length = max 1 (t.steps.getD []).length := by
  unfold rowsForTest
  cases h : (t.steps.getD []) with
  | nil => rfl
  | cons s rest =>
    rw [if_neg (by simp)]
    rw [length_stepRowsFrom]
    simp

/-- C1. Row accounting of the flattener: the output has exactly
`max 1 (number of steps)` rows per test; the output of a concatenation is
the concatenation of the outputs (record order preserved, rows of one
record contiguous); a step-less test yields exactly its base row, whose
four step columns are empty; a test with steps yields one row per step, in
step order, the row at position `i` carrying step number `i + 1` and the
step's own data, and all rows sharing the record-level fields. -/
theorem flatten_rows_row_structure :
    (∀ tests : List Test,
      (flatten_rows tests).length
        = (tests.map (fun t => max 1 (t.steps.getD []).length)).sum)
    ∧ (∀ ts1 ts2 : List Test,
        flatten_rows (ts1 ++ ts2) = flatten_rows ts1 ++ flatten_rows ts2)
    ∧ (∀ t : Test, t.steps.getD [] = [] →
        flatten_rows [t] = [baseRow t]
          ∧ (baseRow t).stepNum = Option.none ∧ (baseRow t).stepPrecondition = ""
          ∧ (baseRow t).action = "" ∧ (baseRow t).expectedResult = "")
    ∧ (∀ (t : Test) (steps : List Step), t.steps.getD [] = steps → steps ≠ [] →
        (flatten_rows [t]).length = steps.length
          ∧ (∀ (i : Nat) (hi : i < steps.length),
              (flatten_rows [t])[i]?
                = Option.some (stepRow (baseRow t) (i + 1) (steps.get ⟨i, hi⟩)))
          ∧ (∀ (i : Nat) (_hi : i < steps.length),
              ((flatten_rows [t])[i]?).map FlatRow.stepNum
                = Option.some (Option.some (i + 1)))
          ∧ (∀ r ∈ flatten_rows [t], r.recordPart = (baseRow t).recordPart)) := by
  have hone : ∀ (t : Test) (steps : List Step), t.steps.getD [] = steps →
      steps ≠ [] → flatten_rows [t] = stepRowsFrom (baseRow t) 1 steps := by
    intro t steps hsteps hne
    rw [flatten_rows_singleton]
    unfold rowsForTest
    rw [hsteps, if_neg (by simpa using hne)]
  refine ⟨?_, ?_, ?_, ?_⟩
  · intro tests
    induction tests with
    | nil => rfl
    | cons t rest ih =>
      simp [flatten_rows, ih, length_rowsForTest]
  · intro ts1 ts2
    induction ts1 with
    | nil => rfl
    | cons t rest ih => simp [flatten_rows, ih]
  · intro t hsteps
    refine ⟨?_, rfl, rfl, rfl, rfl⟩
    rw [flatten_rows_singleton]
    unfold rowsForTest
    rw [hsteps]
    rfl
  · intro t steps hsteps hne
    rw [hone t steps hsteps hne]
    refine ⟨length_stepRowsFrom (baseRow t) steps 1, ?_, ?_, ?_⟩
    · intro i hi
      exact (getElem?_stepRowsFrom (baseRow t) steps 1 i hi).trans
        (by rw [Nat.add_comm 1 i])
    · intro i hi
      rw [getElem?_stepRowsFrom (baseRow t) steps 1 i hi]
      simp [stepRow, Nat.add_comm]
    · intro r hr
      exact recordPart_mem_stepRowsFrom (baseRow t) steps 1 r hr

/-- A sample test with two steps and no preconditions. -/
def sampleTwoStepTest : Test :=
  { jira := Option.some
      { key := Option.some "TEST-1"
        summary := Option.some "Login works"
        labels := Option.some ["smoke", "ui"]
        fields := [] }
    steps := Option.some
      [ { action := Option.some "Enter user"
          result := Option.some "See dashboard"
          customFields := Option.none }
      , { action := Option.some "Click logout"
          result := Option.some "See login page"
          customFields := Option.none } ]
    preconditionResults := Option.none }

theorem flatten_rows_row_structure_witness :
    (flatten_rows [sampleTwoStepTest]).length = 2
      ∧ ((flatten_rows [sampleTwoStepTest])[1]?).map FlatRow.stepNum
          = Option.some (Option.some 2) := by
  have h := flatten_rows_row_structure.2.2.2 sampleTwoStepTest
    (sampleTwoStepTest.steps.getD []) rfl (by simp [sampleTwoStepTest])
  exact ⟨h.1, h.2.2.1 1 (by simp [sampleTwoStepTest])⟩

theorem findStepPrecondition_first_match
    (pre post : List (Option StepCustomField)) (cf : StepCustomField)
    (hpre : ∀ x ∈ pre, matchesPrecondition x = false)
    (hcf : pyLower (cf.name.getD "") = "precondition") :
    findStepPrecondition (pre ++ Option.some cf :: post) = cf.value.getD "" := by
  induction pre with
  | nil => simp [findStepPrecondition, hcf]
  | cons x rest ih =>
    have hx : matchesPrecondition x = false := hpre x (List.mem_cons_self x rest)
    have hrest : ∀ y ∈ rest, matchesPrecondition y = false :=
      fun y hy => hpre y (List.mem_cons_of_mem x hy)
    cases x with
    | none =>
      simp only [List.cons_append, findStepPrecondition]
      exact ih hrest
    | some c =>
      have hc :  (pyLower (c.name.getD "") == "precondition") = false := by
        simpa [matchesPrecondition] using hx
      simp only [List.cons_append, findStepPrecondition, hc, Bool.false_eq_true,
        if_false]
      exact ih hrest

theorem findStepPrecondition_no_match (cfs : List (Option StepCustomField))
    (h : ∀ x ∈ cfs, matchesPrecondition x = false) :
    findStepPrecondition cfs = "" := by
  induction cfs with
  | nil => rfl
  | cons x rest ih =>
    have hx : matchesPrecondition x = false := h x (List.mem_cons_self x rest)
    have hrest : ∀ y ∈ rest, matchesPrecondition y = false :=
      fun y hy => h y (List.mem_cons_of_mem x hy)
    cases x with
    | none =>
      simp only [findStepPrecondition]
      exact ih hrest
    | some c =>
      have hc :  (pyLower (c.name.getD "") == "precondition") = false := by
        simpa [matchesPrecondition] using hx
      simp only [findStepPrecondition, hc, Bool.false_eq_true, if_false]
      exact ih hrest

/-- A test with a single step, used to state the per-step precondition
resolution. -/
def singleStepTest (jira : Option JiraInfo)
    (pres : Option (List (Option PreconditionRef)))
    (a r : Option String) (cfs : List (Option StepCustomField)) : Test :=
  ⟨jira, Option.some [⟨a, r, Option.some cfs⟩], pres⟩

/-- C7. Step-precondition resolution: the step's custom fields are scanned
in declaration order, the first entry whose name compares equal to
"precondition" case-insensitively wins (the guard lowercases the name, so
"Precondition", "PRECONDITION" and "precondition" all match), the row
carries its value trimmed, and with no matching entry the column is
empty. -/
theorem step_precondition_resolution (jira : Option JiraInfo)
    (pres : Option (List (Option PreconditionRef))) (a r : Option String)
    (cfs : List (Option StepCustomField)) :
    (∀ (pre post : List (Option StepCustomField)) (cf : StepCustomField),
        cfs = pre ++ Option.some cf :: post →
        (∀ x ∈ pre, matchesPrecondition x = false) →
        pyLower (cf.name.getD "") = "precondition" →
        (flatten_rows [singleStepTest jira pres a r cfs]).map FlatRow.stepPrecondition
          = [pyStrip (cf.value.getD "")])
    ∧ ((∀ x ∈ cfs, matchesPrecondition x = false) →
        (flatten_rows [singleStepTest jira pres a r cfs]).map FlatRow.stepPrecondition
          = [""]) := by
  have hrows : flatten_rows [singleStepTest jira pres a r cfs]
      = [stepRow (baseRow (singleStepTest jira pres a r cfs)) 1
          ⟨a, r, Option.some cfs⟩] := by
    rw [flatten_rows_singleton]
    rfl
  constructor
  · intro pre post cf hsplit hpre hcf
    rw [hrows]
    simp only [List.map_cons, List.map_nil]
    show [pyStrip (findStepPrecondition cfs)] = [pyStrip (cf.value.getD "")]
    rw [hsplit, findStepPrecondition_first_match pre post cf hpre hcf]
  · intro hnone
    rw [hrows]
    simp only [List.map_cons, List.map_nil]
    show [pyStrip (findStepPrecondition cfs)] = [""]
    rw [findStepPrecondition_no_match cfs hnone]
    rfl

theorem step_precondition_resolution_witness :
    (flatten_rows [singleStepTest Option.none Option.none (Option.some "act")
        Option.none
        [Option.some ⟨Option.some "Other", Option.some "x"⟩,
         Option.some ⟨Option.some "PRECONDITION", Option.some " P1 "⟩,
         Option.some ⟨Option.some "precondition", Option.some "later"⟩]]).map
      FlatRow.stepPrecondition = [pyStrip " P1 "] :=
  (step_precondition_resolution Option.none Option.none (Option.some "act")
      Option.none _).1
    [Option.some ⟨Option.some "Other", Option.some "x"⟩]
    [Option.some ⟨Option.some "precondition", Option.some "later"⟩]
    ⟨Option.some "PRECONDITION", Option.some " P1 "⟩ rfl (by decide) (by decide)

theorem formatListItem_eq_choice (x : PyVal) (hx : isChoiceDict x = true) :
    formatListItem x = pyStr (choiceValue x) := by
  cases x with
  | dict fs =>
    have hx2 : (fs.lookup "value").isSome = true := hx
    simp [formatListItem, choiceValue, hx2]
  | none => simp [isChoiceDict] at hx
  | str s => simp [isChoiceDict] at hx
  | int n => simp [isChoiceDict] at hx
  | bool b => simp [isChoiceDict] at hx
  | list xs => simp [isChoiceDict] at hx

theorem format_falsy_general (v : PyVal) (h1 : isChoiceDict v = false)
    (h3 : truthy v = false) : formatJiraFieldValue v = "" := by
  cases v with
  | none => rfl
  | str s => simp [formatJiraFieldValue, h3]
  | int n => simp [formatJiraFieldValue, h3]
  | bool b => simp [formatJiraFieldValue, truthy] at h3 ⊢; simp [h3]
  | list xs =>
    have hx : xs = [] := by simpa [truthy] using h3
    subst hx
    rfl
  | dict fs =>
    have h1b : (fs.lookup "value").isSome = false := h1
    have h3b : truthy (PyVal.dict fs) = false := h3
    simp [formatJiraFieldValue, h1b, h3b]

/-- C2. The discrimination rule of `_format_jira_field_value`: a dict
containing a `value` key yields that value's string; a list whose items
are all choice dicts yields their values' strings joined by `", "` with
empty entries filtered out; any other non-dict, non-list truthy value
yields its Python string form; anything falsy (other than a choice dict)
yields the empty string.  The Lean embedding is a total function, which is
the never-raises part of the claim. -/
theorem format_jira_field_value_cases :
    (∀ (fs : List (String × PyVal)) (v : PyVal),
        fs.lookup "value" = Option.some v →
        formatJiraFieldValue (.dict fs) = pyStr v)
    ∧ (∀ xs : List PyVal, (∀ x ∈ xs, isChoiceDict x = true) →
        formatJiraFieldValue (.list xs)
          = String.intercalate ", "
              ((xs.map (fun x => pyStr (choiceValue x))).filter
                (fun s => !(s == ""))))
    ∧ (∀ v : PyVal, isChoiceDict v = false → isListVal v = false →
        truthy v = true → formatJiraFieldValue v = pyStr v)
    ∧ (∀ v : PyVal, isChoiceDict v = false → truthy v = false →
        formatJiraFieldValue v = "") := by
  refine ⟨?_, ?_, ?_, fun v h1 h3 => format_falsy_general v h1 h3⟩
  · intro fs v h
    simp [formatJiraFieldValue, h]
  · intro xs hall
    have hmap : xs.map formatListItem = xs.map (fun x => pyStr (choiceValue x)) :=
      List.map_congr_left (fun x hx => formatListItem_eq_choice x (hall x hx))
    simp only [formatJiraFieldValue, hmap]
  · intro v h1 h2 h3
    cases v with
    | none => simp [truthy] at h3
    | str s => simp [formatJiraFieldValue, h3]
    | int n => simp [formatJiraFieldValue, h3]
    | bool b =>
      cases b with
      | false => simp [truthy] at h3
      | true => rfl
    | list xs => simp [isListVal] at h2
    | dict fs =>
      have h1b : (fs.lookup "value").isSome = false := h1
      simp [formatJiraFieldValue, h1b, h3]

theorem format_jira_field_value_cases_witness :
    formatJiraFieldValue
        (.list [.dict [("value", .str "A")], .dict [("value", .str "")],
                .dict [("value", .str "B")]])
      = String.intercalate ", "
          ((([PyVal.dict [("value", .str "A")], .dict [("value", .str "")],
              .dict [("value", .str "B")]].map (fun x => pyStr (choiceValue x))).filter
            (fun s => !(s == "")))) :=
  format_jira_field_value_cases.2.1
    [.dict [("value", .str "A")], .dict [("value", .str "")],
     .dict [("value", .str "B")]] (by decide)

/-- C10. For inputs that are neither a dict with a `value` key nor a list,
a falsy value formats as the empty string; in particular the integer 0 and
the boolean False format as `""` although their Python string forms are
`"0"` and `"False"`. -/
theorem format_jira_field_value_falsy :
    (∀ v : PyVal, isChoiceDict v = false → isListVal v = false →
        truthy v = false → formatJiraFieldValue v = "")
    ∧ formatJiraFieldValue (.int 0) = "" ∧ formatJiraFieldValue (.bool false) = ""
    ∧ pyStr (.int 0) = "0" ∧ pyStr (.bool false) = "False" :=
  ⟨fun v h1 _ h3 => format_falsy_general v h1 h3, rfl, rfl, rfl, rfl⟩

theorem format_jira_field_value_falsy_witness :
    formatJiraFieldValue (.str "") = "" :=
  format_jira_field_value_falsy.1 (.str "") rfl rfl rfl

theorem pySplitAux_tokens :
    ∀ (l acc : List Char), (∀ c ∈ acc, pyIsSpace c = false) →
      ∀ t ∈ pySplitAux l acc, t ≠ [] ∧ ∀ c ∈ t, pyIsSpace c = false := by
  intro l
  induction l with
  | nil =>
    intro acc hacc t ht
    unfold pySplitAux at ht
    by_cases hae : acc.isEmpty = true
    · rw [if_pos hae] at ht
      exact absurd ht (by simp)
    · rw [if_neg hae] at ht
      have hteq : t = acc.reverse := by simpa using ht
      subst hteq
      refine ⟨?_, ?_⟩
      · intro h
        exact hae (by simpa [List.isEmpty_iff] using List.reverse_eq_nil_iff.mp h)
      · intro c hc
        exact hacc c (List.mem_reverse.mp hc)
  | cons c cs ih =>
    intro acc hacc t ht
    unfold pySplitAux at ht
    by_cases hsp : pyIsSpace c = true
    · rw [if_pos hsp] at ht
      by_cases hae : acc.isEmpty = true
      · rw [if_pos hae] at ht
        exact ih [] (by simp) t ht
      · rw [if_neg hae] at ht
        rcases List.mem_cons.mp ht with hteq | htl
        · subst hteq
          refine ⟨?_, ?_⟩
          · intro h
            exact hae (by simpa [List.isEmpty_iff] using List.reverse_eq_nil_iff.mp h)
          · intro x hx
            exact hacc x (List.mem_reverse.mp hx)
        · exact ih [] (by simp) t htl
    · rw [if_neg hsp] at ht
      refine ih (c :: acc) ?_ t ht
      intro x hx
      rcases List.mem_cons.mp hx with hxeq | hxm
      · subst hxeq
        exact Bool.not_eq_true _ ▸ (by simpa using hsp)
      · exact hacc x hxm

theorem pySplitAux_token_append (rest : List Char) :
    ∀ (t acc : List Char), (∀ c ∈ t, pyIsSpace c = false) →
      pySplitAux (t ++ rest) acc = pySplitAux rest (t.reverse ++ acc) := by
  intro t
  induction t with
  | nil => intro acc _; simp
  | cons c t2 ih =>
    intro acc ht
    have hc : pyIsSpace c = false := ht c (List.mem_cons_self c t2)
    show pySplitAux (c :: (t2 ++ rest)) acc = pySplitAux rest ((c :: t2).reverse ++ acc)
    conv_lhs => rw [pySplitAux]
    rw [if_neg (by simp [hc])]
    rw [ih (c :: acc) (fun x hx => ht x (List.mem_cons_of_mem c hx))]
    have h2 : t2.reverse ++ (c :: acc) = (c :: t2).reverse ++ acc := by
      simp
    rw [h2]

theorem pySplitAux_joinSpace :
    ∀ toks : List (List Char),
      (∀ t ∈ toks, t ≠ [] ∧ ∀ c ∈ t, pyIsSpace c = false) →
      pySplitAux (joinSpace toks) [] = toks := by
  intro toks
  induction toks with
  | nil => intro _; rfl
  | cons t ts ih =>
    intro h
    obtain ⟨htne, htws⟩ := h t (List.mem_cons_self t ts)
    have hrev : ¬ (t.reverse.isEmpty = true) := by
      simp [List.isEmpty_iff, htne]
    cases ts with
    | nil =>
      show pySplitAux (joinSpace [t]) [] = [t]
      have hj : joinSpace [t] = t ++ [] := by simp [joinSpace]
      rw [hj, pySplitAux_token_append [] t [] htws]
      unfold pySplitAux
      rw [List.append_nil, if_neg hrev]
      simp
    | cons t2 ts2 =>
      show pySplitAux (t ++ ' ' :: joinSpace (t2 :: ts2)) [] = t :: t2 :: ts2
      rw [pySplitAux_token_append (' ' :: joinSpace (t2 :: ts2)) t [] htws]
      rw [List.append_nil]
      unfold pySplitAux
      rw [if_pos (by rfl)]
      rw [if_neg hrev]
      rw [ih (fun x hx => h x (List.mem_cons_of_mem t hx))]
      simp

/-- C8. The whitespace normalization applied to precondition definitions
(collapse every whitespace run to one space, trim both ends) is
idempotent. -/
theorem normalize_whitespace_idempotent (s : String) :
    normalizeWhitespace (normalizeWhitespace s) = normalizeWhitespace s := by
  show String.mk (joinSpace (pySplitAux
      (String.mk (joinSpace (pySplitAux s.toList []))).toList [])) = _
  have hts : (String.mk (joinSpace (pySplitAux s.toList []))).toList
      = joinSpace (pySplitAux s.toList []) := rfl
  rw [hts, pySplitAux_joinSpace (pySplitAux s.toList [])
    (pySplitAux_tokens s.toList [] (by simp))]
  rfl

example : formatJiraFieldValue (.dict [("value", .str "High")]) = "High" := by rfl
example : formatJiraFieldValue (.list [.dict [("value", .str "A")], .dict [("value", .str "")], .dict [("value", .str "B")]]) = "A, B" := by rfl
example : formatJiraFieldValue (.int 0) = "" := by rfl
example : formatJiraFieldValue (.bool false) = "" := by rfl
example : formatJiraFieldValue (.str "x") = "x" := by rfl
example : formatJiraFieldValue .none = "" := by rfl

end Xray
